import Mathlib

/-!
Verification of the flow / task-queue core of the GRR-style repository.

Shallow embedding of:
- `grr/lib/flow.py` : the `Responses` collator (`__init__`, `__iter__`,
  `__len__`), the `StateHandler` decorator dispatch, and the
  `FlowBase.Flush` / `FlowBase.Close` commit protocol;
- `grr/lib/queue_manager.py` : `QueueManager.QueryAndOwn` / `_QueryAndOwn`
  (task leasing, TTL handling), `QueueManager.QueueNotification`, and
  `QueueManager.Flush` write ordering.

Python unbounded integers are modelled as `Nat` (all quantities involved are
non-negative: ids, timestamps in microseconds, TTLs, priorities).  Fallible
constructors are modelled with `Except`; a Python generator is modelled as a
function returning the list of yielded values together with the error (if
any) that interrupted the iteration.
-/

/-! ### Data model for responses (rdfvalues, simplified to the fields the
collator reads) -/

/-- `GrrMessage.AuthorizationState`. -/
inductive AuthState
  | unauthenticated
  | authenticated
  | desynchronized
deriving DecidableEq

/-- `GrrMessage.Type`. -/
inductive MsgType
  | message
  | status
  | iterator
deriving DecidableEq

/-- `GrrStatus.ReturnedStatus`: the `OK` code versus any non-OK code
(collapsed, since the collator only compares against `OK`). -/
inductive RetStatus
  | OK
  | genericError
deriving DecidableEq

/-- The fields of an `rdf_flows.GrrMessage` that the `Responses` collator
reads.  `payload` abstracts the payload object; `payload_status` is the
result of interpreting the payload as a `GrrStatus` (only meaningful when
`msgType = status`); `args_rdf_name` is the message's `args_rdf_name`
attribute (empty string models a missing name). -/
structure GrrMessage where
  response_id : Nat
  auth_state : AuthState
  msgType : MsgType
  payload : Nat
  payload_status : RetStatus
  args_rdf_name : String
deriving DecidableEq

/-- An embedded client-action request (`request.request` in the source);
only its `name` is consulted by `Responses.__iter__`. -/
structure ClientReq where
  name : String
deriving DecidableEq

/-- The fields of a `RequestState` that the collator reads: `request` is the
optional embedded client request (`HasField("request")` is `Option.isSome`). -/
structure RequestState where
  data : Nat
  request : Option ClientReq
deriving DecidableEq

def isMessageMsg (m : GrrMessage) : Bool :=
  match m.msgType with
  | .message => true
  | _ => false

def isStatusMsg (m : GrrMessage) : Bool :=
  match m.msgType with
  | .status => true
  | _ => false

def isIteratorMsg (m : GrrMessage) : Bool :=
  match m.msgType with
  | .iterator => true
  | _ => false

def isAuthenticated (a : AuthState) : Bool :=
  match a with
  | .authenticated => true
  | _ => false

def isDesynchronized (a : AuthState) : Bool :=
  match a with
  | .desynchronized => true
  | _ => false

/-- The drop condition of `Responses.__init__`:
`msg.auth_state == DESYNCHRONIZED or (auth_required and
msg.auth_state != AUTHENTICATED)`. -/
def msgDropped (auth_required : Bool) (m : GrrMessage) : Bool :=
  isDesynchronized m.auth_state || (auth_required && !(isAuthenticated m.auth_state))

/-- The observable state of a constructed `Responses` object: `status`
models `self.status` (as its `GrrStatus.status` code), `success` models
`self.success`, `responses` models `self._responses`, `dropped` models
`self._dropped_responses`, `iterState` models `self.iterator`'s payload. -/
structure ResponsesState where
  status : Option RetStatus
  success : Bool
  responses : List GrrMessage
  dropped : List GrrMessage
  iterState : Option Nat
deriving DecidableEq

/-- The `for msg in responses:` loop body of `Responses.__init__`, applied to
an (already sorted) message list: unauthenticated/desynchronized messages are
collected into `dropped`; an ITERATOR message updates the iterator slot (the
last one before the status wins); the first STATUS message sets
`status`/`success` and stops the scan; every other message is retained. -/
def buildLoop (auth_required : Bool) : List GrrMessage → ResponsesState
  | [] => ⟨none, true, [], [], none⟩
  | m :: rest =>
    if msgDropped auth_required m then
      let r := buildLoop auth_required rest
      { r with dropped := m :: r.dropped }
    else if isIteratorMsg m then
      let r := buildLoop auth_required rest
      { r with iterState := some (r.iterState.getD m.payload) }
    else if isStatusMsg m then
      ⟨some m.payload_status, m.payload_status = .OK, [], [], none⟩
    else
      let r := buildLoop auth_required rest
      { r with responses := m :: r.responses }

/-- Stable insertion (by `response_id`) used to model Python's stable
`responses.sort(key=operator.attrgetter("response_id"))`. -/
def insertByRespId (m : GrrMessage) : List GrrMessage → List GrrMessage
  | [] => [m]
  | x :: xs =>
    if m.response_id ≤ x.response_id then m :: x :: xs
    else x :: insertByRespId m xs

/-- Stable sort by ascending `response_id`. -/
def sortByRespId : List GrrMessage → List GrrMessage
  | [] => []
  | m :: rest => insertByRespId m (sortByRespId rest)

/-- The state of an empty collator (`responses` argument `None` or `[]`):
`status = None`, `success = True`, no retained responses. -/
def emptyResponses : ResponsesState := ⟨none, true, [], [], none⟩

/-- `Responses.__init__(request, responses, auth_required)`.  The `responses`
argument is `Option (List GrrMessage)` (`none` models Python `None`); a falsy
argument skips all processing.  Raising `FlowError` is modelled by
`Except.error` carrying the exception message. -/
def responsesBuild (_request : Option RequestState) (responses : Option (List GrrMessage))
    (auth_required : Bool) : Except String ResponsesState :=
  match responses with
  | none => .ok emptyResponses
  | some msgs =>
    if msgs.isEmpty then .ok emptyResponses
    else
      let st := buildLoop auth_required (sortByRespId msgs)
      if st.status = none then .error "No valid Status message."
      else .ok st

/-- `Responses.__len__` is `len(self._responses)`. -/
def responsesLen (st : ResponsesState) : Nat := st.responses.length

/-- The ways `Responses.__iter__` can raise. -/
inductive IterErr
  | attrError
  | unknownClientAction
  | missingOutRdfvalue
  | deprecatedFormat
  | typeMismatch
deriving DecidableEq

/-- The `for message in self._responses:` loop of `Responses.__iter__`:
consecutive repeats of a `response_id` are skipped; MESSAGE-type records are
yielded (after schema validation when the request came from a client); other
records advance the duplicate tracker without being yielded.  Returns the
payloads yielded before the iteration finished or raised, together with the
error if one was raised. -/
def iterLoop (isClient : Bool) (expected : List String) :
    Option Nat → List GrrMessage → List Nat × Option IterErr
  | _, [] => ([], none)
  | old, m :: rest =>
    if old = some m.response_id then iterLoop isClient expected old rest
    else
      if isMessageMsg m then
        if isClient then
          if expected.isEmpty then ([], some .missingOutRdfvalue)
          else if m.args_rdf_name = "" then ([], some .deprecatedFormat)
          else if !(expected.contains m.args_rdf_name) then ([], some .typeMismatch)
          else
            let r := iterLoop isClient expected (some m.response_id) rest
            (m.payload :: r.1, r.2)
        else
          let r := iterLoop isClient expected (some m.response_id) rest
          (m.payload :: r.1, r.2)
      else
        iterLoop isClient expected (some m.response_id) rest

/-- `Responses.__iter__` run to completion on the retained responses `rs`.
`registry` models `server_stubs.ClientActionStub.classes`, mapping an action
name to the names of its `out_rdfvalues` (or `none` when unregistered).
A `none` request models Python's `self.request = None`, on which
`self.request.HasField("request")` raises `AttributeError`. -/
def iterRun (registry : String → Option (List String)) (request : Option RequestState)
    (rs : List GrrMessage) : List Nat × Option IterErr :=
  match request with
  | none => ([], some .attrError)
  | some req =>
    match req.request with
    | some creq =>
      match registry creq.name with
      | none => ([], some .unknownClientAction)
      | some expected => iterLoop true expected none rs
    | none => iterLoop false [] none rs

/-- Specification-side helper: drop consecutive repeats of a `response_id`
(the retransmission filter of `__iter__`), starting from a previously seen
id. -/
def dedupById : Option Nat → List GrrMessage → List GrrMessage
  | _, [] => []
  | old, m :: rest =>
    if old = some m.response_id then dedupById old rest
    else m :: dedupById (some m.response_id) rest

/-- Specification-side helper: the prefix of MESSAGE-type records preceding
the first status record. -/
def messagesBeforeStatus (l : List GrrMessage) : List GrrMessage :=
  l.takeWhile isMessageMsg

/-! ### Data model for the task queue (`queue_manager.py`) -/

/-- The fields of a queued `GrrMessage` task that `_QueryAndOwn` touches:
`task_id` (also determines the `task:%08d` predicate), `priority`,
`task_ttl`, `eta` (set from the stored cell timestamp on read) and the
`last_lease` annotation string. -/
structure QTask where
  task_id : Nat
  priority : Nat
  task_ttl : Nat
  eta : Nat
  last_lease : String
deriving DecidableEq

/-- One stored cell of a queue subject: the serialized task under its
`task:%08d` predicate, together with the cell timestamp that controls
visibility.  A queue's cells are listed in prefix-scan (task-id) order. -/
structure QEntry where
  task : QTask
  ts : Nat
deriving DecidableEq

/-- The queue-manager-visible state: the queue's cells plus the
`grr_task_ttl_expired_count` counter. -/
structure QState where
  store : List QEntry
  ttlExpired : Nat
deriving DecidableEq

def entryIds (l : List QEntry) : List Nat := l.map (fun e => e.task.task_id)

/-- The per-task mutation performed by the `_QueryAndOwn` scan before the TTL
test: `task.eta = timestamp; task.last_lease = user@host:pid;
task.task_ttl -= 1` (the lease tag string is abstracted as `tag`). -/
def leaseTask (tag : String) (e : QEntry) : QTask :=
  { e.task with eta := e.ts, last_lease := tag, task_ttl := e.task.task_ttl - 1 }

/-- The `for predicate, task, timestamp in ResolvePrefix(...)` loop of
`_QueryAndOwn` over the visible cells, with `rem` the remaining budget
(`limit` minus the tasks collected so far).  A task whose decremented TTL
reaches zero is recorded for deletion (second component); otherwise it is
collected and, when the collected count reaches `limit`
(`if len(tasks) >= limit: break`), the scan stops without touching the
remaining cells. -/
def scanLoop (tag : String) : Nat → List QEntry → List QTask × List Nat
  | _, [] => ([], [])
  | rem, e :: rest =>
    if (leaseTask tag e).task_ttl = 0 then
      ((scanLoop tag rem rest).1, e.task.task_id :: (scanLoop tag rem rest).2)
    else if rem ≤ 1 then ([leaseTask tag e], [])
    else
      (leaseTask tag e :: (scanLoop tag (rem - 1) rest).1, (scanLoop tag (rem - 1) rest).2)

/-- The cells the `ResolvePrefix(subject, "task:", timestamp=(0, now))` scan
returns: stored timestamp at or before `now`, in store (task-id) order. -/
def visibleEntries (now : Nat) (store : List QEntry) : List QEntry :=
  store.filter (fun e => decide (e.ts ≤ now))

/-- The effect on the queue subject of the single
`MultiSet(serialized_tasks_dict, replace=True, timestamp=newTs,
to_delete=delete_attrs)` write of `_QueryAndOwn`: the TTL-expired predicates
in `drops` are deleted, and every cell whose task was returned is replaced
by the updated task at cell timestamp `newTs`; all other cells are
untouched. -/
def applyLease (tasks : List QTask) (drops : List Nat) (newTs : Nat)
    (store : List QEntry) : List QEntry :=
  (store.filter (fun e => !(decide (e.task.task_id ∈ drops)))).map
    (fun e =>
      match tasks.find? (fun t => t.task_id == e.task.task_id) with
      | some t => ({ task := t, ts := newTs } : QEntry)
      | none => e)

/-- `QueueManager._QueryAndOwn(subject, lease_seconds, limit)` at logical
time `now` (microseconds): scan the cells whose timestamp is at or before
`now`, then apply one `MultiSet(replace=True, timestamp=now+lease,
to_delete=...)` write that deletes the TTL-expired predicates and re-writes
every returned task at visibility timestamp `now + lease_seconds * 10^6`;
the TTL-expired counter grows by the number of dropped tasks. -/
def queryAndOwnRaw (tag : String) (now leaseSeconds limit : Nat) (st : QState) :
    List QTask × QState :=
  ((scanLoop tag limit (visibleEntries now st.store)).1,
   { store :=
       applyLease (scanLoop tag limit (visibleEntries now st.store)).1
         (scanLoop tag limit (visibleEntries now st.store)).2
         (now + leaseSeconds * 1000000) st.store,
     ttlExpired :=
       st.ttlExpired + (scanLoop tag limit (visibleEntries now st.store)).2.length })

/-- Outcome of `data_store.LockRetryWrapper` on the queue subject:
the lock was acquired, a `DBSubjectLockError` was raised, or a generic
`data_store.Error` was raised during leasing. -/
inductive LockOutcome
  | acquired
  | lockFailed
  | storeError
deriving DecidableEq

/-- `QueueManager.QueryAndOwn`: on a lock failure or a generic datastore
error the exception is swallowed and the empty list is returned with the
state unchanged; otherwise `_QueryAndOwn` runs under the lock. -/
def QueryAndOwn (lock : LockOutcome) (tag : String) (now leaseSeconds limit : Nat)
    (st : QState) : List QTask × QState :=
  match lock with
  | .acquired => queryAndOwnRaw tag now leaseSeconds limit st
  | .lockFailed => ([], st)
  | .storeError => ([], st)

/-- Parameters of one `QueryAndOwn` call in a sequence. -/
structure StepParams where
  tag : String
  now : Nat
  leaseSeconds : Nat
  limit : Nat
  lock : LockOutcome
deriving DecidableEq

/-- The queue state after a sequence of `QueryAndOwn` calls. -/
def runSteps : List StepParams → QState → QState
  | [], st => st
  | p :: ps, st => runSteps ps (QueryAndOwn p.lock p.tag p.now p.leaseSeconds p.limit st).2

/-- All tasks returned over a sequence of `QueryAndOwn` calls. -/
def stepReturns : List StepParams → QState → List QTask
  | [], _ => []
  | p :: ps, st =>
    (QueryAndOwn p.lock p.tag p.now p.leaseSeconds p.limit st).1 ++
      stepReturns ps (QueryAndOwn p.lock p.tag p.now p.leaseSeconds p.limit st).2

/-! ### Pending notifications (`QueueManager.QueueNotification`) -/

/-- The fields of an `rdf_flows.GrrNotification` that `QueueNotification`
reads: the session id, the timestamp it stamps onto the notification, and
the `last_status` ordering hint. -/
structure GrrNotification where
  session_id : String
  timestamp : Option Nat
  last_status : Nat
deriving DecidableEq

/-- The `"%s!%s" % (session_id, ts_str)` key of the pending-notification
buffer (`ts_str` is `"None"` for a missing timestamp). -/
def notifKey (sid : String) (ts : Option Nat) : String :=
  sid ++ "!" ++ (match ts with | none => "None" | some n => toString n)

/-- `QueueManager.QueueNotification`: a falsy session id is ignored;
otherwise the notification is stamped with the timestamp and stored under
its `(session id, timestamp)` key, keeping the incumbent unless the new
notification has a strictly higher `last_status`. -/
def QueueNotification (buf : String → Option GrrNotification)
    (n : GrrNotification) (timestamp : Option Nat) : String → Option GrrNotification :=
  if n.session_id = "" then buf
  else
    let n' := { n with timestamp := timestamp }
    let key := notifKey n.session_id timestamp
    fun k =>
      if k = key then
        match buf key with
        | some existing => if existing.last_status < n'.last_status then some n' else some existing
        | none => some n'
      else buf k

/-- A sequence of `QueueNotification` calls with a common timestamp. -/
def queueMany (buf : String → Option GrrNotification) (ns : List GrrNotification)
    (timestamp : Option Nat) : String → Option GrrNotification :=
  match ns with
  | [] => buf
  | n :: rest => queueMany (QueueNotification buf n timestamp) rest timestamp

/-! ### Flush / Close commit traces (`FlowBase.Flush`, `FlowBase.Close`,
`QueueManager.Flush`) -/

/-- The externally observable steps of a flow commit, in execution order:
`checkLease` (`self.CheckLease()`), `save` (`self.Save()`), `writeState`
(`self.WriteState()`), `load` (`self.Load()`), `persistState` (the
`super().Flush()/Close()` write of context + args + state), and the queue
mutations flushed by `QueueManager.Flush`. -/
inductive FlowEv
  | checkLease
  | save
  | writeState
  | load
  | persistState
  | storeRequestsAndResponses
  | deleteClientMessages (clientId : String)
  | scheduleTasks (ts : Nat)
  | notifyQueue (sid : String)
deriving DecidableEq

/-- Events that write to the data store. -/
def isStoreWrite : FlowEv → Bool
  | .persistState => true
  | .storeRequestsAndResponses => true
  | .deleteClientMessages _ => true
  | .scheduleTasks _ => true
  | .notifyQueue _ => true
  | _ => false

/-- Events belonging to the buffered queue-mutation flush. -/
def isQueueWrite : FlowEv → Bool
  | .storeRequestsAndResponses => true
  | .deleteClientMessages _ => true
  | .scheduleTasks _ => true
  | .notifyQueue _ => true
  | _ => false

/-- Notification-write events. -/
def isNotifyEv : FlowEv → Bool
  | .notifyQueue _ => true
  | _ => false

/-- The buffered mutations held by the runner's queue manager when the flow
commits: client ids with messages to delete, timestamps of new client
messages to schedule, and session ids of pending notifications. -/
structure QueueBuffers where
  clientDeletes : List String
  newClientMessages : List Nat
  notifySessions : List String
deriving DecidableEq

/-- `QueueManager.Flush`: `StoreRequestsAndResponses` first, then the
mutation pool (client-message deletions, then scheduling of new client
messages), and only afterwards the notification writes. -/
def queueFlushTrace (b : QueueBuffers) : List FlowEv :=
  FlowEv.storeRequestsAndResponses ::
    (b.clientDeletes.map FlowEv.deleteClientMessages ++
      b.newClientMessages.map FlowEv.scheduleTasks ++
      b.notifySessions.map FlowEv.notifyQueue)

/-- `FlowBase.Flush`: `CheckLease` first (an expired lease raises before any
write), then `Save`, `WriteState`, `Load`, the state write of
`super().Flush`, and last the queue-manager flush.  The boolean records
whether the commit completed. -/
def flowFlushTrace (leaseValid : Bool) (b : QueueBuffers) : List FlowEv × Bool :=
  if leaseValid then
    (FlowEv.checkLease :: FlowEv.save :: FlowEv.writeState :: FlowEv.load ::
      FlowEv.persistState :: queueFlushTrace b, true)
  else ([FlowEv.checkLease], false)

/-- `FlowBase.Close`: as `Flush` but without the `Load` hook. -/
def flowCloseTrace (leaseValid : Bool) (b : QueueBuffers) : List FlowEv × Bool :=
  if leaseValid then
    (FlowEv.checkLease :: FlowEv.save :: FlowEv.writeState ::
      FlowEv.persistState :: queueFlushTrace b, true)
  else ([FlowEv.checkLease], false)

/-! ### State-handler dispatch (`StateHandler.Decorated`) -/

/-- The externally observable actions of one `StateHandler.Decorated`
invocation. -/
inductive DispatchEv
  | errorCalled (reason : String)
  | saveResourceUsage
  | handlerRun
deriving DecidableEq

/-- `StateHandler.Decorated`: when the flow object is open for reading
(`"r" in self.mode`) and its `PENDING_TERMINATION` attribute is set, `Error`
is called with the recorded reason and the dispatcher returns; otherwise a
direct response runs the handler immediately, and a normal response batch
records resource usage (when it carries a status) before running the
handler.  The mode string is modelled as its character list. -/
def stateHandlerDispatch (mode : List Char) (pending : Option String)
    (directResponse : Bool) (hasStatus : Bool) : List DispatchEv :=
  match if mode.contains 'r' then pending else none with
  | some reason => [DispatchEv.errorCalled reason]
  | none =>
    if directResponse then [DispatchEv.handlerRun]
    else
      (if hasStatus then [DispatchEv.saveResourceUsage] else []) ++ [DispatchEv.handlerRun]

/-! ### Concrete example inputs used by witnesses and counterexamples -/

/-- Authenticated responses with ids 1, 2, 2, 3 and a status at id 5. -/
def c1ExampleMsgs : List GrrMessage :=
  [⟨1, AuthState.authenticated, MsgType.message, 10, RetStatus.OK, "A"⟩,
   ⟨2, AuthState.authenticated, MsgType.message, 20, RetStatus.OK, "A"⟩,
   ⟨2, AuthState.authenticated, MsgType.message, 21, RetStatus.OK, "A"⟩,
   ⟨3, AuthState.authenticated, MsgType.message, 30, RetStatus.OK, "A"⟩,
   ⟨5, AuthState.authenticated, MsgType.status, 0, RetStatus.OK, ""⟩]

/-- Authenticated responses with a duplicated response id 2 and a status. -/
def c9ExampleMsgs : List GrrMessage :=
  [⟨1, AuthState.authenticated, MsgType.message, 10, RetStatus.OK, "A"⟩,
   ⟨2, AuthState.authenticated, MsgType.message, 20, RetStatus.OK, "A"⟩,
   ⟨2, AuthState.authenticated, MsgType.message, 21, RetStatus.OK, "A"⟩,
   ⟨3, AuthState.authenticated, MsgType.status, 0, RetStatus.OK, ""⟩]

/-- Authenticated responses with distinct response ids and a status. -/
def c9WitnessMsgs : List GrrMessage :=
  [⟨1, AuthState.authenticated, MsgType.message, 10, RetStatus.OK, "A"⟩,
   ⟨2, AuthState.authenticated, MsgType.message, 20, RetStatus.OK, "A"⟩,
   ⟨3, AuthState.authenticated, MsgType.status, 0, RetStatus.OK, ""⟩]

/-- The collator state built from `c9WitnessMsgs`. -/
def c9WitnessState : ResponsesState :=
  ⟨some RetStatus.OK, true,
   [⟨1, AuthState.authenticated, MsgType.message, 10, RetStatus.OK, "A"⟩,
    ⟨2, AuthState.authenticated, MsgType.message, 20, RetStatus.OK, "A"⟩],
   [], none⟩

/-- A queue with three visible tasks (ids 1, 2, 3; priorities 1, 9, 5; all
TTL 5, stored at timestamp 0). -/
def c2ExampleState : QState :=
  ⟨[⟨⟨1, 1, 5, 0, ""⟩, 0⟩, ⟨⟨2, 9, 5, 0, ""⟩, 0⟩, ⟨⟨3, 5, 5, 0, ""⟩, 0⟩], 0⟩

/-- A queue with a single visible task whose TTL is 1 (one lease away from
expiry). -/
def c4ExampleState : QState := ⟨[⟨⟨1, 5, 1, 0, ""⟩, 0⟩], 0⟩

/-! ### Lemmas about the collator -/

theorem mem_insertByRespId {a m : GrrMessage} :
    ∀ {l : List GrrMessage}, a ∈ insertByRespId m l ↔ a = m ∨ a ∈ l := by
  intro l
  induction l with
  | nil => simp [insertByRespId]
  | cons x xs ih =>
    by_cases h : m.response_id ≤ x.response_id
    · simp [insertByRespId, h]
    · simp only [insertByRespId, if_neg h, List.mem_cons, ih]
      tauto

theorem mem_sortByRespId {a : GrrMessage} :
    ∀ {l : List GrrMessage}, a ∈ sortByRespId l ↔ a ∈ l := by
  intro l
  induction l with
  | nil => simp [sortByRespId]
  | cons x xs ih => simp [sortByRespId, mem_insertByRespId, ih]

theorem pairwise_insertByRespId {m : GrrMessage} {l : List GrrMessage}
    (h : l.Pairwise (fun a b => a.response_id ≤ b.response_id)) :
    (insertByRespId m l).Pairwise (fun a b => a.response_id ≤ b.response_id) := by
  induction l with
  | nil => simp [insertByRespId]
  | cons x xs ih =>
    rw [List.pairwise_cons] at h
    obtain ⟨hx, hxs⟩ := h
    by_cases hle : m.response_id ≤ x.response_id
    · rw [insertByRespId, if_pos hle]
      refine List.pairwise_cons.2 ⟨?_, List.pairwise_cons.2 ⟨hx, hxs⟩⟩
      intro b hb
      rcases List.mem_cons.1 hb with rfl | hb
      · exact hle
      · exact le_trans hle (hx b hb)
    · rw [insertByRespId, if_neg hle]
      refine List.pairwise_cons.2 ⟨?_, ih hxs⟩
      intro b hb
      rcases mem_insertByRespId.1 hb with rfl | hb
      · omega
      · exact hx b hb

theorem pairwise_sortByRespId :
    ∀ (l : List GrrMessage),
      (sortByRespId l).Pairwise (fun a b => a.response_id ≤ b.response_id) := by
  intro l
  induction l with
  | nil => simp [sortByRespId]
  | cons x xs ih => exact pairwise_insertByRespId ih

theorem buildLoop_pure (l : List GrrMessage)
    (hauth : ∀ m ∈ l, m.auth_state = AuthState.authenticated)
    (htype : ∀ m ∈ l, m.msgType = MsgType.message ∨ m.msgType = MsgType.status) :
    (buildLoop true l).responses = l.takeWhile isMessageMsg ∧
    (buildLoop true l).status = (l.find? isStatusMsg).map GrrMessage.payload_status ∧
    ∀ sm, l.find? isStatusMsg = some sm →
      (buildLoop true l).success = decide (sm.payload_status = RetStatus.OK) := by
  induction l with
  | nil => simp [buildLoop]
  | cons m rest ih =>
    have hm := hauth m (List.mem_cons_self m rest)
    have hdrop : msgDropped true m = false := by
      simp [msgDropped, hm, isDesynchronized, isAuthenticated]
    obtain ⟨ih1, ih2, ih3⟩ :=
      ih (fun x hx => hauth x (List.mem_cons_of_mem m hx))
        (fun x hx => htype x (List.mem_cons_of_mem m hx))
    rcases htype m (List.mem_cons_self m rest) with hmt | hmt
    · have h1 : isIteratorMsg m = false := by simp [isIteratorMsg, hmt]
      have h2 : isStatusMsg m = false := by simp [isStatusMsg, hmt]
      have h3 : isMessageMsg m = true := by simp [isMessageMsg, hmt]
      have hfind : (m :: rest).find? isStatusMsg = rest.find? isStatusMsg :=
        List.find?_cons_of_neg rest (by simp [h2])
      refine ⟨?_, ?_, ?_⟩
      · simp [buildLoop, hdrop, h1, h2, h3, ih1]
      · rw [hfind]
        simp [buildLoop, hdrop, h1, h2, ih2]
      · intro sm hsm
        rw [hfind] at hsm
        have := ih3 sm hsm
        simpa [buildLoop, hdrop, h1, h2] using this
    · have h1 : isIteratorMsg m = false := by simp [isIteratorMsg, hmt]
      have h2 : isStatusMsg m = true := by simp [isStatusMsg, hmt]
      have h3 : isMessageMsg m = false := by simp [isMessageMsg, hmt]
      have hfind : (m :: rest).find? isStatusMsg = some m :=
        List.find?_cons_of_pos rest h2
      refine ⟨?_, ?_, ?_⟩
      · simp [buildLoop, hdrop, h1, h2, h3]
      · rw [hfind]
        simp [buildLoop, hdrop, h1, h2]
      · intro sm hsm
        rw [hfind] at hsm
        cases hsm
        simp [buildLoop, hdrop, h1, h2]

theorem buildLoop_responses_message (auth_required : Bool) :
    ∀ (l : List GrrMessage), ∀ m ∈ (buildLoop auth_required l).responses,
      isMessageMsg m = true := by
  intro l
  induction l with
  | nil => simp [buildLoop]
  | cons x rest ih =>
    intro m hm
    by_cases hdrop : msgDropped auth_required x = true
    · rw [buildLoop] at hm
      simp only [hdrop, if_true] at hm
      exact ih m hm
    · rw [buildLoop] at hm
      simp only [hdrop, if_false, Bool.not_eq_true] at hm
      by_cases hit : isIteratorMsg x = true
      · simp only [hit, if_true] at hm
        exact ih m hm
      · simp only [hit, if_false, Bool.not_eq_true] at hm
        by_cases hst : isStatusMsg x = true
        · simp only [hst, if_true] at hm
          simp at hm
        · simp only [hst, if_false, Bool.not_eq_true] at hm
          rcases List.mem_cons.1 hm with rfl | hm
          · cases hmsg : m.msgType
            · simp [isMessageMsg, hmsg]
            · simp [isStatusMsg, hmsg] at hst
            · simp [isIteratorMsg, hmsg] at hit
          · exact ih m hm

theorem buildLoop_status_none (l : List GrrMessage)
    (h : ∀ m ∈ l, msgDropped true m = true ∨ isStatusMsg m = false) :
    (buildLoop true l).status = none := by
  induction l with
  | nil => simp [buildLoop]
  | cons m rest ih =>
    have ihr := ih (fun x hx => h x (List.mem_cons_of_mem m hx))
    rcases h m (List.mem_cons_self m rest) with hd | hs
    · simp [buildLoop, hd, ihr]
    · by_cases hd : msgDropped true m = true
      · simp [buildLoop, hd, ihr]
      · by_cases hit : isIteratorMsg m = true
        · simp [buildLoop, hd, hit, ihr]
        · simp [buildLoop, hd, hit, hs, ihr]

theorem iterLoop_messages (l : List GrrMessage) :
    ∀ old, (∀ m ∈ l, isMessageMsg m = true) →
      iterLoop false [] old l = ((dedupById old l).map GrrMessage.payload, none) := by
  induction l with
  | nil => intro old _; simp [iterLoop, dedupById]
  | cons m rest ih =>
    intro old h
    have hm : isMessageMsg m = true := h m (List.mem_cons_self m rest)
    have hr := fun o => ih o (fun x hx => h x (List.mem_cons_of_mem m hx))
    by_cases hdup : old = some m.response_id
    · simp [iterLoop, dedupById, hdup, hr]
    · simp [iterLoop, dedupById, hdup, hm, hr]

theorem dedupById_some_spec (l : List GrrMessage) :
    ∀ i, l.Pairwise (fun a b => a.response_id ≤ b.response_id) →
      (∀ m ∈ l, i ≤ m.response_id) →
      List.Chain' (fun a b => a.response_id < b.response_id) (dedupById (some i) l) ∧
      ∀ x ∈ dedupById (some i) l, i < x.response_id := by
  induction l with
  | nil => simp [dedupById]
  | cons m rest ih =>
    intro i hp hb
    rw [List.pairwise_cons] at hp
    obtain ⟨hmle, hrest⟩ := hp
    by_cases hdup : (some i : Option Nat) = some m.response_id
    · have hi : i = m.response_id := Option.some.inj hdup
      rw [dedupById, if_pos hdup]
      exact ih i hrest (fun x hx => hi ▸ hmle x hx)
    · rw [dedupById, if_neg hdup]
      have hlt : i < m.response_id :=
        lt_of_le_of_ne (hb m (List.mem_cons_self m rest)) (fun h => hdup (congrArg some h))
      obtain ⟨hc, hmem⟩ := ih m.response_id hrest hmle
      refine ⟨List.chain'_cons'.2 ⟨?_, hc⟩, ?_⟩
      · intro b hb'
        exact hmem b (List.mem_of_mem_head? hb')
      · intro x hx
        rcases List.mem_cons.1 hx with rfl | hx
        · exact hlt
        · exact lt_trans hlt (hmem x hx)

theorem dedupById_none_chain (l : List GrrMessage)
    (hp : l.Pairwise (fun a b => a.response_id ≤ b.response_id)) :
    List.Chain' (fun a b => a.response_id < b.response_id) (dedupById none l) := by
  cases l with
  | nil => simp [dedupById]
  | cons m rest =>
    rw [List.pairwise_cons] at hp
    obtain ⟨hmle, hrest⟩ := hp
    rw [dedupById, if_neg (by simp)]
    obtain ⟨hc, hmem⟩ := dedupById_some_spec rest m.response_id hrest hmle
    refine List.chain'_cons'.2 ⟨?_, hc⟩
    intro b hb'
    exact hmem b (List.mem_of_mem_head? hb')

theorem responsesBuild_none_eq (request : Option RequestState) (ar : Bool) :
    responsesBuild request none ar = .ok emptyResponses := rfl

theorem responsesBuild_some_eq (request : Option RequestState) (msgs : List GrrMessage)
    (ar : Bool) :
    responsesBuild request (some msgs) ar =
      if msgs.isEmpty then .ok emptyResponses
      else if (buildLoop ar (sortByRespId msgs)).status = none then
        .error "No valid Status message."
      else .ok (buildLoop ar (sortByRespId msgs)) := rfl

theorem iterRun_nonclient (registry : String → Option (List String))
    (req : RequestState) (rs : List GrrMessage) (h : req.request = none) :
    iterRun registry (some req) rs = iterLoop false [] none rs := by
  obtain ⟨d, reqr⟩ := req
  cases reqr with
  | none => rfl
  | some c => cases h

theorem responsesBuild_responses_message {request : Option RequestState}
    {responses : Option (List GrrMessage)} {ar : Bool} {st : ResponsesState}
    (h : responsesBuild request responses ar = .ok st) :
    ∀ m ∈ st.responses, isMessageMsg m = true := by
  cases responses with
  | none =>
    rw [responsesBuild_none_eq] at h
    cases h
    simp [emptyResponses]
  | some msgs =>
    rw [responsesBuild_some_eq] at h
    by_cases he : msgs.isEmpty
    · rw [if_pos he] at h
      cases h
      simp [emptyResponses]
    · rw [if_neg he] at h
      by_cases hs : (buildLoop ar (sortByRespId msgs)).status = none
      · rw [if_pos hs] at h
        cases h
      · rw [if_neg hs] at h
        cases h
        exact buildLoop_responses_message ar (sortByRespId msgs)

theorem dedupById_eq_of_nodup :
    ∀ (l : List GrrMessage) (o : Option Nat),
      (l.map GrrMessage.response_id).Nodup →
      (∀ i, o = some i → i ∉ l.map GrrMessage.response_id) →
      dedupById o l = l := by
  intro l
  induction l with
  | nil => intro o _ _; simp [dedupById]
  | cons m rest ih =>
    intro o hnd ho
    have hne : ¬ o = some m.response_id := by
      intro h
      exact ho m.response_id h (by simp)
    rw [dedupById, if_neg hne]
    rw [List.map_cons, List.nodup_cons] at hnd
    rw [ih (some m.response_id) hnd.2 (fun i hi => by cases hi; exact hnd.1)]

/-- C1: for a non-empty batch of authenticated responses consisting of
message records plus at least one status record, the collator constructs
successfully; its status comes from the first status record in response-id
order and the success flag is true iff that status code is OK; iterating
yields exactly the payloads of the pre-status message records with
consecutive duplicate response ids suppressed, in strictly ascending
response-id order (so each response id is yielded at most once). -/
theorem c1_responses_order_dedup_status (msgs : List GrrMessage) (r : RequestState)
    (registry : String → Option (List String))
    (hauth : ∀ m ∈ msgs, m.auth_state = AuthState.authenticated)
    (htype : ∀ m ∈ msgs, m.msgType = MsgType.message ∨ m.msgType = MsgType.status)
    (hstatus : ∃ m ∈ msgs, m.msgType = MsgType.status)
    (hreq : r.request = none) :
    ∃ st sm,
      responsesBuild (some r) (some msgs) true = .ok st ∧
      (sortByRespId msgs).find? isStatusMsg = some sm ∧
      st.status = some sm.payload_status ∧
      (st.success = true ↔ sm.payload_status = RetStatus.OK) ∧
      iterRun registry (some r) st.responses =
        ((dedupById none (messagesBeforeStatus (sortByRespId msgs))).map
          GrrMessage.payload, none) ∧
      List.Chain' (fun a b => a.response_id < b.response_id)
        (dedupById none (messagesBeforeStatus (sortByRespId msgs))) := by
  obtain ⟨m0, hm0, hm0s⟩ := hstatus
  have hauth' : ∀ m ∈ sortByRespId msgs, m.auth_state = AuthState.authenticated :=
    fun m hm => hauth m (mem_sortByRespId.1 hm)
  have htype' : ∀ m ∈ sortByRespId msgs,
      m.msgType = MsgType.message ∨ m.msgType = MsgType.status :=
    fun m hm => htype m (mem_sortByRespId.1 hm)
  obtain ⟨hb1, hb2, hb3⟩ := buildLoop_pure (sortByRespId msgs) hauth' htype'
  have hfind : (sortByRespId msgs).find? isStatusMsg ≠ none := by
    intro hn
    have := List.find?_eq_none.1 hn m0 (mem_sortByRespId.2 hm0)
    simp [isStatusMsg, hm0s] at this
  obtain ⟨sm, hsm⟩ := Option.ne_none_iff_exists'.1 hfind
  have hstat : (buildLoop true (sortByRespId msgs)).status = some sm.payload_status := by
    rw [hb2, hsm]
    rfl
  have hne : msgs.isEmpty = false := by
    cases msgs with
    | nil => cases hm0
    | cons a l => rfl
  have hbuild : responsesBuild (some r) (some msgs) true =
      .ok (buildLoop true (sortByRespId msgs)) := by
    rw [responsesBuild_some_eq, if_neg (by simp [hne]), if_neg (by simp [hstat])]
  refine ⟨buildLoop true (sortByRespId msgs), sm, hbuild, hsm, hstat, ?_, ?_, ?_⟩
  · rw [hb3 sm hsm]
    simp
  · rw [hb1, iterRun_nonclient registry r _ hreq]
    rw [iterLoop_messages _ none (fun m hm => List.mem_takeWhile_imp hm)]
    rfl
  · exact dedupById_none_chain _
      ((pairwise_sortByRespId msgs).sublist (List.takeWhile_sublist isMessageMsg))

/-- Witness for C1 at the spec's example: ids 1, 2, 2, 3 plus a status at
id 5. -/
theorem c1_witness :
    ∃ st sm,
      responsesBuild (some ⟨0, none⟩) (some c1ExampleMsgs) true = .ok st ∧
      (sortByRespId c1ExampleMsgs).find? isStatusMsg = some sm ∧
      st.status = some sm.payload_status ∧
      (st.success = true ↔ sm.payload_status = RetStatus.OK) ∧
      iterRun (fun _ => none) (some ⟨0, none⟩) st.responses =
        ((dedupById none (messagesBeforeStatus (sortByRespId c1ExampleMsgs))).map
          GrrMessage.payload, none) ∧
      List.Chain' (fun a b => a.response_id < b.response_id)
        (dedupById none (messagesBeforeStatus (sortByRespId c1ExampleMsgs))) :=
  c1_responses_order_dedup_status c1ExampleMsgs ⟨0, none⟩ (fun _ => none)
    (by decide) (by decide) (by decide) rfl

/-- C3: a non-empty response list whose authenticated records contain no
status record makes the collator constructor raise
`FlowError("No valid Status message.")`. -/
theorem c3_missing_status_raises (r : Option RequestState) (msgs : List GrrMessage)
    (hne : msgs ≠ [])
    (hns : ∀ m ∈ msgs, m.auth_state = AuthState.authenticated →
      m.msgType ≠ MsgType.status) :
    responsesBuild r (some msgs) true = .error "No valid Status message." := by
  have hstat : (buildLoop true (sortByRespId msgs)).status = none := by
    apply buildLoop_status_none
    intro m hm
    have hm' := mem_sortByRespId.1 hm
    cases ha : m.auth_state with
    | unauthenticated =>
      left
      simp [msgDropped, ha, isDesynchronized, isAuthenticated]
    | authenticated =>
      right
      have hmt := hns m hm' ha
      cases h : m.msgType with
      | message => simp [isStatusMsg, h]
      | status => exact absurd h hmt
      | iterator => simp [isStatusMsg, h]
    | desynchronized =>
      left
      simp [msgDropped, ha, isDesynchronized]
  have he : msgs.isEmpty = false := by
    cases msgs with
    | nil => exact absurd rfl hne
    | cons a l => rfl
  rw [responsesBuild_some_eq, if_neg (by simp [he]), if_pos hstat]

/-- Witness for C3: an unauthenticated status record plus an authenticated
message record. -/
theorem c3_witness :
    responsesBuild (some ⟨0, none⟩)
      (some [⟨1, AuthState.unauthenticated, MsgType.status, 0, RetStatus.OK, ""⟩,
             ⟨2, AuthState.authenticated, MsgType.message, 5, RetStatus.OK, "A"⟩]) true =
      .error "No valid Status message." :=
  c3_missing_status_raises _ _ (by decide) (by decide)

/-- Counterexample to C9 as stated: with a duplicated response id 2 the
collator length (`__len__`, over `_responses`) is 3 but iteration yields
only 2 payloads, so the exposed count differs from the number of yielded
payloads. -/
theorem c9_counterexample :
    (responsesBuild (some ⟨0, none⟩) (some c9ExampleMsgs) true).map responsesLen =
      .ok 3 ∧
    (responsesBuild (some ⟨0, none⟩) (some c9ExampleMsgs) true).map
      (fun st => (iterRun (fun _ => none) (some ⟨0, none⟩) st.responses).1.length) =
      .ok 2 ∧
    (3 : Nat) ≠ 2 :=
  ⟨rfl, rfl, by decide⟩

/-- C9 (amended): when the retained responses carry pairwise-distinct
response ids and the request is not a client-action request, the collator
length equals the number of payloads the iteration yields (and the
iteration completes without error, yielding one payload per retained
response). -/
theorem c9_length_matches_yields (r : RequestState) (msgs : List GrrMessage) (ar : Bool)
    (registry : String → Option (List String)) (st : ResponsesState)
    (hbuild : responsesBuild (some r) (some msgs) ar = .ok st)
    (hreq : r.request = none)
    (hnodup : (st.responses.map GrrMessage.response_id).Nodup) :
    iterRun registry (some r) st.responses = (st.responses.map GrrMessage.payload, none) ∧
    responsesLen st = (iterRun registry (some r) st.responses).1.length := by
  have hall := responsesBuild_responses_message hbuild
  have hdedup : dedupById none st.responses = st.responses :=
    dedupById_eq_of_nodup st.responses none hnodup (by simp)
  have hiter : iterRun registry (some r) st.responses =
      (st.responses.map GrrMessage.payload, none) := by
    rw [iterRun_nonclient registry r _ hreq]
    rw [iterLoop_messages st.responses none hall, hdedup]
  refine ⟨hiter, ?_⟩
  rw [hiter]
  simp [responsesLen]

/-- Witness for the amended C9 at distinct response ids 1, 2 plus a status. -/
theorem c9_witness :
    iterRun (fun _ => none) (some ⟨0, none⟩) c9WitnessState.responses =
      (c9WitnessState.responses.map GrrMessage.payload, none) ∧
    responsesLen c9WitnessState =
      (iterRun (fun _ => none) (some ⟨0, none⟩) c9WitnessState.responses).1.length :=
  c9_length_matches_yields ⟨0, none⟩ c9WitnessMsgs true (fun _ => none) c9WitnessState
    rfl rfl (by decide)

/-- C10: constructing a collator from `None` or an empty response list never
raises; the result reports `success = True`, `status = None`, retains no
responses, and iterating it yields no payloads. -/
theorem c10_empty_responses_ok (r : Option RequestState) (ar : Bool)
    (registry : String → Option (List String)) :
    responsesBuild r none ar = .ok emptyResponses ∧
    responsesBuild r (some []) ar = .ok emptyResponses ∧
    emptyResponses.success = true ∧
    emptyResponses.status = none ∧
    emptyResponses.responses = [] ∧
    (iterRun registry r emptyResponses.responses).1 = [] := by
  refine ⟨rfl, rfl, rfl, rfl, rfl, ?_⟩
  cases r with
  | none => rfl
  | some req =>
    cases hreq : req.request with
    | none => simp [iterRun, hreq, iterLoop, emptyResponses]
    | some creq =>
      cases hr : registry creq.name with
      | none => simp [iterRun, hreq, hr]
      | some ex => simp [iterRun, hreq, hr, iterLoop, emptyResponses]

/-! ### Lemmas about the task queue -/

theorem leaseTask_ttl (tag : String) (e : QEntry) :
    (leaseTask tag e).task_ttl = e.task.task_ttl - 1 := rfl

theorem leaseTask_id (tag : String) (e : QEntry) :
    (leaseTask tag e).task_id = e.task.task_id := rfl

theorem scanLoop_length (tag : String) :
    ∀ (l : List QEntry) (rem : Nat), (scanLoop tag rem l).1.length ≤ max rem 1 := by
  intro l
  induction l with
  | nil => intro rem; simp [scanLoop]
  | cons e rest ih =>
    intro rem
    by_cases h0 : (leaseTask tag e).task_ttl = 0
    · rw [scanLoop, if_pos h0]
      exact ih rem
    · by_cases hrem : rem ≤ 1
      · rw [scanLoop, if_neg h0, if_pos hrem]
        simp
      · rw [scanLoop, if_neg h0, if_neg hrem]
        have := ih (rem - 1)
        simp only [List.length_cons]
        omega

theorem scanLoop_tasks_spec (tag : String) :
    ∀ (l : List QEntry) (rem : Nat), ∀ t ∈ (scanLoop tag rem l).1,
      ∃ e ∈ l, t = leaseTask tag e ∧ t.task_ttl ≠ 0 := by
  intro l
  induction l with
  | nil => intro rem t ht; simp [scanLoop] at ht
  | cons e rest ih =>
    intro rem t ht
    by_cases h0 : (leaseTask tag e).task_ttl = 0
    · rw [scanLoop, if_pos h0] at ht
      obtain ⟨e', he', h1, h2⟩ := ih rem t ht
      exact ⟨e', List.mem_cons_of_mem e he', h1, h2⟩
    · by_cases hrem : rem ≤ 1
      · rw [scanLoop, if_neg h0, if_pos hrem] at ht
        have heq : t = leaseTask tag e := by simpa using ht
        exact ⟨e, List.mem_cons_self e rest, heq, by rw [heq]; exact h0⟩
      · rw [scanLoop, if_neg h0, if_neg hrem] at ht
        rcases List.mem_cons.1 ht with rfl | ht
        · exact ⟨e, List.mem_cons_self e rest, rfl, h0⟩
        · obtain ⟨e', he', h1, h2⟩ := ih (rem - 1) t ht
          exact ⟨e', List.mem_cons_of_mem e he', h1, h2⟩

theorem scanLoop_drops_spec (tag : String) :
    ∀ (l : List QEntry) (rem : Nat), ∀ d ∈ (scanLoop tag rem l).2,
      ∃ e ∈ l, d = e.task.task_id ∧ e.task.task_ttl ≤ 1 := by
  intro l
  induction l with
  | nil => intro rem d hd; simp [scanLoop] at hd
  | cons e rest ih =>
    intro rem d hd
    by_cases h0 : (leaseTask tag e).task_ttl = 0
    · rw [scanLoop, if_pos h0] at hd
      rcases List.mem_cons.1 hd with rfl | hd
      · refine ⟨e, List.mem_cons_self e rest, rfl, ?_⟩
        rw [leaseTask_ttl] at h0
        omega
      · obtain ⟨e', he', h1, h2⟩ := ih rem d hd
        exact ⟨e', List.mem_cons_of_mem e he', h1, h2⟩
    · by_cases hrem : rem ≤ 1
      · rw [scanLoop, if_neg h0, if_pos hrem] at hd
        simp at hd
      · rw [scanLoop, if_neg h0, if_neg hrem] at hd
        obtain ⟨e', he', h1, h2⟩ := ih (rem - 1) d hd
        exact ⟨e', List.mem_cons_of_mem e he', h1, h2⟩

theorem scanLoop_nodup (tag : String) :
    ∀ (l : List QEntry) (rem : Nat), (entryIds l).Nodup →
      ((scanLoop tag rem l).1.map QTask.task_id).Nodup ∧
      (∀ d ∈ (scanLoop tag rem l).2, d ∉ (scanLoop tag rem l).1.map QTask.task_id) ∧
      (scanLoop tag rem l).2.Nodup := by
  intro l
  induction l with
  | nil => intro rem _; simp [scanLoop]
  | cons e rest ih =>
    intro rem hN
    have hN' : (e.task.task_id ∉ entryIds rest) ∧ (entryIds rest).Nodup := by
      simpa [entryIds] using hN
    obtain ⟨hnotin, hrest⟩ := hN'
    have htaskmem : ∀ rem', e.task.task_id ∉ (scanLoop tag rem' rest).1.map QTask.task_id := by
      intro rem' hmem
      obtain ⟨t, ht, hid⟩ := List.mem_map.1 hmem
      obtain ⟨e', he', heq, -⟩ := scanLoop_tasks_spec tag rest rem' t ht
      apply hnotin
      have : t.task_id = e'.task.task_id := by rw [heq, leaseTask_id]
      rw [entryIds]
      exact List.mem_map.2 ⟨e', he', by rw [← this, hid]⟩
    have hdropmem : ∀ rem', e.task.task_id ∉ (scanLoop tag rem' rest).2 := by
      intro rem' hmem
      obtain ⟨e', he', hid, -⟩ := scanLoop_drops_spec tag rest rem' _ hmem
      apply hnotin
      rw [entryIds]
      exact List.mem_map.2 ⟨e', he', hid.symm⟩
    by_cases h0 : (leaseTask tag e).task_ttl = 0
    · rw [scanLoop, if_pos h0]
      obtain ⟨ihn, ihd, ihdn⟩ := ih rem hrest
      refine ⟨ihn, ?_, ?_⟩
      · intro d hd
        rcases List.mem_cons.1 hd with rfl | hd
        · exact htaskmem rem
        · exact ihd d hd
      · exact List.nodup_cons.2 ⟨hdropmem rem, ihdn⟩
    · by_cases hrem : rem ≤ 1
      · rw [scanLoop, if_neg h0, if_pos hrem]
        simp
      · rw [scanLoop, if_neg h0, if_neg hrem]
        obtain ⟨ihn, ihd, ihdn⟩ := ih (rem - 1) hrest
        refine ⟨?_, ?_, ihdn⟩
        · rw [List.map_cons, List.nodup_cons]
          refine ⟨?_, ihn⟩
          rw [leaseTask_id]
          exact htaskmem (rem - 1)
        · intro d hd
          rw [List.map_cons]
          intro hmem
          rcases List.mem_cons.1 hmem with heq | hmem'
          · obtain ⟨e', he', hid, -⟩ := scanLoop_drops_spec tag rest (rem - 1) d hd
            apply hnotin
            rw [leaseTask_id] at heq
            rw [entryIds]
            exact List.mem_map.2 ⟨e', he', by rw [← hid, heq]⟩
          · exact ihd d hd hmem'

theorem find?_task_id_nodup :
    ∀ (tasks : List QTask) (t : QTask), (tasks.map QTask.task_id).Nodup → t ∈ tasks →
      tasks.find? (fun x => x.task_id == t.task_id) = some t := by
  intro tasks
  induction tasks with
  | nil => intro t _ ht; cases ht
  | cons x rest ih =>
    intro t hN ht
    rw [List.map_cons, List.nodup_cons] at hN
    rcases List.mem_cons.1 ht with rfl | ht
    · exact List.find?_cons_of_pos rest (by simp)
    · have hxne : x.task_id ≠ t.task_id :=
        fun h => hN.1 (h ▸ List.mem_map_of_mem QTask.task_id ht)
      rw [List.find?_cons_of_neg rest (by simp [hxne]), ih t hN.2 ht]

theorem countP_not_add_countP {α : Type} (p : α → Bool) :
    ∀ (l : List α), l.countP (fun a => !p a) + l.countP p = l.length := by
  intro l
  induction l with
  | nil => rfl
  | cons a rest ih =>
    rw [List.countP_cons, List.countP_cons]
    cases h : p a <;> simp [h] <;> omega

theorem countP_mem_of_nodup :
    ∀ (ids ds : List Nat), ids.Nodup → ds.Nodup → (∀ d ∈ ds, d ∈ ids) →
      ids.countP (fun i => decide (i ∈ ds)) = ds.length := by
  intro ids
  induction ids with
  | nil =>
    intro ds _ _ hsub
    have : ds = [] := List.eq_nil_iff_forall_not_mem.2 (fun d hd => by simpa using hsub d hd)
    subst this
    rfl
  | cons i rest ih =>
    intro ds hN hd hsub
    rw [List.nodup_cons] at hN
    rw [List.countP_cons]
    by_cases hmem : i ∈ ds
    · rw [if_pos (by simpa using hmem)]
      have hcongr : rest.countP (fun j => decide (j ∈ ds)) =
          rest.countP (fun j => decide (j ∈ ds.erase i)) := by
        apply List.countP_congr
        intro a ha
        have hane : a ≠ i := fun h => hN.1 (h ▸ ha)
        simp [hd.mem_erase_iff, hane]
      have hsub' : ∀ d ∈ ds.erase i, d ∈ rest := by
        intro d hdm
        obtain ⟨hne, hdm'⟩ := hd.mem_erase_iff.1 hdm
        rcases List.mem_cons.1 (hsub d hdm') with rfl | h
        · exact absurd rfl hne
        · exact h
      rw [hcongr, ih (ds.erase i) hN.2 (hd.erase i) hsub']
      have hlen : (ds.erase i).length = ds.length - 1 := List.length_erase_of_mem hmem
      have hpos : 0 < ds.length := List.length_pos_of_mem hmem
      omega
    · rw [if_neg (by simpa using hmem)]
      have hsub' : ∀ d ∈ ds, d ∈ rest := by
        intro d hdm
        rcases List.mem_cons.1 (hsub d hdm) with rfl | h
        · exact absurd hdm hmem
        · exact h
      rw [ih ds hN.2 hd hsub']
      omega

theorem entry_unique :
    ∀ (l : List QEntry), (entryIds l).Nodup → ∀ e ∈ l, ∀ e₂ ∈ l,
      e.task.task_id = e₂.task.task_id → e = e₂ := by
  intro l
  induction l with
  | nil => intro _ e he; cases he
  | cons x rest ih =>
    intro hN e he e₂ he₂ hid
    have hN' : (x.task.task_id ∉ entryIds rest) ∧ (entryIds rest).Nodup := by
      simpa [entryIds] using hN
    rcases List.mem_cons.1 he with heq | he
    · rcases List.mem_cons.1 he₂ with heq₂ | he₂
      · rw [heq, heq₂]
      · exfalso
        apply hN'.1
        rw [← heq, hid]
        exact List.mem_map.2 ⟨e₂, he₂, rfl⟩
    · rcases List.mem_cons.1 he₂ with heq₂ | he₂
      · exfalso
        apply hN'.1
        rw [← heq₂, ← hid]
        exact List.mem_map.2 ⟨e, he, rfl⟩
      · exact ih hN'.2 e he e₂ he₂ hid

theorem visibleEntries_mem {now : Nat} {store : List QEntry} {e : QEntry}
    (h : e ∈ visibleEntries now store) : e ∈ store ∧ e.ts ≤ now := by
  have := List.mem_filter.1 h
  exact ⟨this.1, by simpa using this.2⟩

theorem visibleEntries_nodup (now : Nat) {store : List QEntry}
    (h : (entryIds store).Nodup) : (entryIds (visibleEntries now store)).Nodup := by
  apply h.sublist
  exact (List.filter_sublist store).map _

theorem applyLease_mem_src {tasks : List QTask} {drops : List Nat} {newTs : Nat}
    {store : List QEntry} {e' : QEntry} (h : e' ∈ applyLease tasks drops newTs store) :
    ∃ e ∈ store, e'.task.task_id = e.task.task_id ∧ e.task.task_id ∉ drops ∧
      (e' = e ∨ ∃ t ∈ tasks, e' = (⟨t, newTs⟩ : QEntry)) := by
  unfold applyLease at h
  obtain ⟨e, he, heq⟩ := List.mem_map.1 h
  have hfe := List.mem_filter.1 he
  have hnd : e.task.task_id ∉ drops := by simpa using hfe.2
  cases hf : tasks.find? (fun t => t.task_id == e.task.task_id) with
  | none =>
    rw [hf] at heq
    exact ⟨e, hfe.1, by rw [← heq], hnd, Or.inl heq.symm⟩
  | some t =>
    rw [hf] at heq
    have hid : t.task_id = e.task.task_id := by simpa using List.find?_some hf
    refine ⟨e, hfe.1, ?_, hnd, Or.inr ⟨t, List.mem_of_find?_eq_some hf, heq.symm⟩⟩
    rw [← heq]
    exact hid

theorem applyLease_mem_of_task {tasks : List QTask} {drops : List Nat} {newTs : Nat}
    {store : List QEntry} (hN : (tasks.map QTask.task_id).Nodup) {t : QTask}
    (ht : t ∈ tasks) {e : QEntry} (he : e ∈ store) (hid : e.task.task_id = t.task_id)
    (hnd : t.task_id ∉ drops) :
    (⟨t, newTs⟩ : QEntry) ∈ applyLease tasks drops newTs store := by
  unfold applyLease
  apply List.mem_map.2
  refine ⟨e, List.mem_filter.2 ⟨he, by simp [hid, hnd]⟩, ?_⟩
  rw [hid, find?_task_id_nodup tasks t hN ht]

theorem applyLease_kept (tasks : List QTask) {drops : List Nat} (newTs : Nat)
    {store : List QEntry} {e : QEntry} (he : e ∈ store)
    (hnd : e.task.task_id ∉ drops) :
    ∃ e' ∈ applyLease tasks drops newTs store, e'.task.task_id = e.task.task_id := by
  unfold applyLease
  refine ⟨_, List.mem_map.2 ⟨e, List.mem_filter.2 ⟨he, by simp [hnd]⟩, rfl⟩, ?_⟩
  cases hf : tasks.find? (fun t => t.task_id == e.task.task_id) with
  | none => rfl
  | some t => simpa using List.find?_some hf

theorem applyLease_length (tasks : List QTask) {drops : List Nat} (newTs : Nat)
    {store : List QEntry} (hN : (entryIds store).Nodup) (hd : drops.Nodup)
    (hsub : ∀ d ∈ drops, d ∈ entryIds store) :
    (applyLease tasks drops newTs store).length = store.length - drops.length := by
  unfold applyLease
  rw [List.length_map, ← List.countP_eq_length_filter]
  have h1 : store.countP (fun e => decide (e.task.task_id ∈ drops)) = drops.length := by
    have h2 : store.countP (fun e => decide (e.task.task_id ∈ drops)) =
        (entryIds store).countP (fun i => decide (i ∈ drops)) := by
      rw [entryIds, List.countP_map]
      rfl
    rw [h2]
    exact countP_mem_of_nodup (entryIds store) drops hN hd hsub
  have h3 := countP_not_add_countP (fun e : QEntry => decide (e.task.task_id ∈ drops)) store
  omega

theorem queryAndOwn_scan_spec (tag : String) (now ls limit : Nat) (st : QState)
    (hN : (entryIds st.store).Nodup) :
    (QueryAndOwn LockOutcome.acquired tag now ls limit st).1.length ≤ max limit 1 ∧
    (∀ t ∈ (QueryAndOwn LockOutcome.acquired tag now ls limit st).1,
      ∃ e ∈ st.store, e.ts ≤ now ∧ t = leaseTask tag e ∧
        e.task.task_ttl = t.task_ttl + 1 ∧ t.task_ttl ≠ 0) ∧
    (∀ t ∈ (QueryAndOwn LockOutcome.acquired tag now ls limit st).1,
      (⟨t, now + ls * 1000000⟩ : QEntry) ∈
        (QueryAndOwn LockOutcome.acquired tag now ls limit st).2.store) ∧
    (∀ e ∈ st.store,
      (∀ e' ∈ (QueryAndOwn LockOutcome.acquired tag now ls limit st).2.store,
        e'.task.task_id ≠ e.task.task_id) →
      e.ts ≤ now ∧ e.task.task_ttl ≤ 1) := by
  have hvN := visibleEntries_nodup now hN
  obtain ⟨htN, hdisj, hdN⟩ := scanLoop_nodup tag (visibleEntries now st.store) limit hvN
  refine ⟨?_, ?_, ?_, ?_⟩
  · exact scanLoop_length tag (visibleEntries now st.store) limit
  · intro t ht
    obtain ⟨e, he, heq, httl⟩ := scanLoop_tasks_spec tag _ limit t ht
    obtain ⟨hes, hts⟩ := visibleEntries_mem he
    refine ⟨e, hes, hts, heq, ?_, httl⟩
    have h1 : t.task_ttl = e.task.task_ttl - 1 := by rw [heq, leaseTask_ttl]
    omega
  · intro t ht
    obtain ⟨e, he, heq, httl⟩ := scanLoop_tasks_spec tag _ limit t ht
    obtain ⟨hes, hts⟩ := visibleEntries_mem he
    have hid : e.task.task_id = t.task_id := by rw [heq, leaseTask_id]
    have hnd : t.task_id ∉ (scanLoop tag limit (visibleEntries now st.store)).2 := by
      intro hmem
      exact hdisj _ hmem (List.mem_map_of_mem QTask.task_id ht)
    exact applyLease_mem_of_task htN ht hes hid hnd
  · intro e hes h'
    by_cases hd : e.task.task_id ∈ (scanLoop tag limit (visibleEntries now st.store)).2
    · obtain ⟨e₂, he₂, hid, httl⟩ := scanLoop_drops_spec tag _ limit _ hd
      obtain ⟨he₂s, hts₂⟩ := visibleEntries_mem he₂
      have heq : e = e₂ := entry_unique st.store hN e hes e₂ he₂s hid
      rw [heq]
      exact ⟨hts₂, httl⟩
    · obtain ⟨e', he', hid'⟩ := applyLease_kept
        (scanLoop tag limit (visibleEntries now st.store)).1
        (now + ls * 1000000) hes hd
      exact absurd hid' (h' e' he')

theorem queryAndOwn_absent (lock : LockOutcome) (tag : String) (now ls limit : Nat)
    (st : QState) (i : Nat) (h : ∀ e ∈ st.store, e.task.task_id ≠ i) :
    (∀ t ∈ (QueryAndOwn lock tag now ls limit st).1, t.task_id ≠ i) ∧
    (∀ e ∈ (QueryAndOwn lock tag now ls limit st).2.store, e.task.task_id ≠ i) := by
  cases lock with
  | lockFailed => exact ⟨fun t ht => absurd ht (List.not_mem_nil t), h⟩
  | storeError => exact ⟨fun t ht => absurd ht (List.not_mem_nil t), h⟩
  | acquired =>
    constructor
    · intro t ht
      obtain ⟨e, he, heq, -⟩ := scanLoop_tasks_spec tag _ limit t ht
      obtain ⟨hes, -⟩ := visibleEntries_mem he
      have : t.task_id = e.task.task_id := by rw [heq, leaseTask_id]
      rw [this]
      exact h e hes
    · intro e' he'
      obtain ⟨e, hes, hid, -, -⟩ := applyLease_mem_src he'
      rw [hid]
      exact h e hes

theorem runSteps_absent (i : Nat) :
    ∀ (ps : List StepParams) (st : QState), (∀ e ∈ st.store, e.task.task_id ≠ i) →
      (∀ t ∈ stepReturns ps st, t.task_id ≠ i) ∧
      (∀ e ∈ (runSteps ps st).store, e.task.task_id ≠ i) := by
  intro ps
  induction ps with
  | nil =>
    intro st h
    exact ⟨fun t ht => absurd ht (List.not_mem_nil t), h⟩
  | cons p rest ih =>
    intro st h
    obtain ⟨h1, h2⟩ := queryAndOwn_absent p.lock p.tag p.now p.leaseSeconds p.limit st i h
    obtain ⟨ih1, ih2⟩ := ih _ h2
    constructor
    · intro t ht
      rw [stepReturns] at ht
      rcases List.mem_append.1 ht with ht | ht
      · exact h1 t ht
      · exact ih1 t ht
    · intro e he
      rw [runSteps] at he
      exact ih2 e he

/-- Counterexample to C2 as stated: on a queue holding visible tasks with
ids 1, 2, 3 and priorities 1, 9, 5, `QueryAndOwn` with `limit = 2` returns
the tasks with priorities `[1, 9]` — not sorted by descending priority —
and leaves the visible task id 3 in the store with its TTL still 5, i.e.
the scan did not visit (nor decrement) every visible task. -/
theorem c2_counterexample :
    (QueryAndOwn LockOutcome.acquired "w" 10 10 2 c2ExampleState).1.map QTask.priority =
      [1, 9] ∧
    ¬ List.Chain' (fun a b => b ≤ a)
      ((QueryAndOwn LockOutcome.acquired "w" 10 10 2 c2ExampleState).1.map QTask.priority) ∧
    (⟨⟨3, 5, 5, 0, ""⟩, 0⟩ : QEntry) ∈ c2ExampleState.store ∧
    (⟨⟨3, 5, 5, 0, ""⟩, 0⟩ : QEntry).ts ≤ 10 ∧
    (⟨⟨3, 5, 5, 0, ""⟩, 0⟩ : QEntry) ∈
      (QueryAndOwn LockOutcome.acquired "w" 10 10 2 c2ExampleState).2.store := by
  refine ⟨rfl, ?_, by decide, by decide, by decide⟩
  have h : (QueryAndOwn LockOutcome.acquired "w" 10 10 2 c2ExampleState).1.map
      QTask.priority = [1, 9] := rfl
  rw [h]
  simp [List.chain'_cons]

/-- C2 (amended): `QueryAndOwn` under the queue lock scans the visible
(timestamp at or before now) cells in store order only until `limit`
surviving tasks have been collected; every returned task comes from a
visible cell and carries that cell's TTL decremented by exactly one (and is
non-zero); every returned task is re-written into the store with visibility
timestamp now + lease; at most `max limit 1` tasks are returned; and the
only cells that disappear are visible ones whose TTL was at most 1.  The
returned list is in scan order, not sorted by priority, and visible tasks
beyond the early stop are not scanned. -/
theorem c2_query_and_own_scan (tag : String) (now ls limit : Nat) (st : QState)
    (hN : (entryIds st.store).Nodup) :
    (QueryAndOwn LockOutcome.acquired tag now ls limit st).1.length ≤ max limit 1 ∧
    (∀ t ∈ (QueryAndOwn LockOutcome.acquired tag now ls limit st).1,
      ∃ e ∈ st.store, e.ts ≤ now ∧ t = leaseTask tag e ∧
        e.task.task_ttl = t.task_ttl + 1 ∧ t.task_ttl ≠ 0) ∧
    (∀ t ∈ (QueryAndOwn LockOutcome.acquired tag now ls limit st).1,
      (⟨t, now + ls * 1000000⟩ : QEntry) ∈
        (QueryAndOwn LockOutcome.acquired tag now ls limit st).2.store) ∧
    (∀ e ∈ st.store,
      (∀ e' ∈ (QueryAndOwn LockOutcome.acquired tag now ls limit st).2.store,
        e'.task.task_id ≠ e.task.task_id) →
      e.ts ≤ now ∧ e.task.task_ttl ≤ 1) :=
  queryAndOwn_scan_spec tag now ls limit st hN

/-- Witness for the amended C2 at the three-task example queue. -/
theorem c2_witness :
    (entryIds c2ExampleState.store).Nodup ∧
    (QueryAndOwn LockOutcome.acquired "w" 10 10 2 c2ExampleState).1.length ≤ max 2 1 :=
  ⟨by decide, (c2_query_and_own_scan "w" 10 10 2 c2ExampleState (by decide)).1⟩

/-- C4: every task returned by a `QueryAndOwn` lease has non-zero TTL and
its stored TTL after the call is its stored TTL before the call minus
exactly one (re-leased at now + lease); the `grr_task_ttl_expired_count`
counter grows by exactly the number of tasks removed from the store by the
call; a store without zero-TTL tasks never acquires one; and once a task id
is absent from the store, no sequence of further `QueryAndOwn` calls ever
returns it or re-creates it. -/
theorem c4_ttl_lifecycle (tag : String) (now ls limit : Nat) (st : QState)
    (hN : (entryIds st.store).Nodup) :
    (∀ t ∈ (QueryAndOwn LockOutcome.acquired tag now ls limit st).1,
      t.task_ttl ≠ 0 ∧
      ∃ e ∈ st.store, ∃ e' ∈ (QueryAndOwn LockOutcome.acquired tag now ls limit st).2.store,
        e.task.task_id = t.task_id ∧ e'.task.task_id = t.task_id ∧
        e'.task.task_ttl + 1 = e.task.task_ttl ∧ e'.ts = now + ls * 1000000) ∧
    ((QueryAndOwn LockOutcome.acquired tag now ls limit st).2.ttlExpired =
      st.ttlExpired +
        (st.store.length -
          (QueryAndOwn LockOutcome.acquired tag now ls limit st).2.store.length)) ∧
    ((∀ e ∈ st.store, e.task.task_ttl ≠ 0) →
      ∀ e' ∈ (QueryAndOwn LockOutcome.acquired tag now ls limit st).2.store,
        e'.task.task_ttl ≠ 0) ∧
    (∀ i, (∀ e ∈ st.store, e.task.task_id ≠ i) → ∀ ps : List StepParams,
      (∀ t ∈ stepReturns ps st, t.task_id ≠ i) ∧
      (∀ e ∈ (runSteps ps st).store, e.task.task_id ≠ i)) := by
  obtain ⟨hlen, hspec, hmem, hdrop⟩ := queryAndOwn_scan_spec tag now ls limit st hN
  have hvN := visibleEntries_nodup now hN
  obtain ⟨htN, hdisj, hdN⟩ := scanLoop_nodup tag (visibleEntries now st.store) limit hvN
  refine ⟨?_, ?_, ?_, ?_⟩
  · intro t ht
    obtain ⟨e, hes, hts, heq, httl, hnz⟩ := hspec t ht
    have he' := hmem t ht
    refine ⟨hnz, e, hes, ⟨t, now + ls * 1000000⟩, he', ?_, rfl, ?_, rfl⟩
    · rw [heq, leaseTask_id]
    · simpa using httl.symm
  · have hdsub : ∀ d ∈ (scanLoop tag limit (visibleEntries now st.store)).2,
        d ∈ entryIds st.store := by
      intro d hd
      obtain ⟨e₂, he₂, hid, -⟩ := scanLoop_drops_spec tag _ limit d hd
      obtain ⟨he₂s, -⟩ := visibleEntries_mem he₂
      rw [entryIds, hid]
      exact List.mem_map.2 ⟨e₂, he₂s, rfl⟩
    have happly := applyLease_length
      (scanLoop tag limit (visibleEntries now st.store)).1
      (now + ls * 1000000) hN hdN hdsub
    have hle : (scanLoop tag limit (visibleEntries now st.store)).2.length ≤
        st.store.length := by
      have h1 := countP_mem_of_nodup (entryIds st.store)
        (scanLoop tag limit (visibleEntries now st.store)).2 hN hdN hdsub
      have h2 : (entryIds st.store).countP
          (fun i => decide (i ∈ (scanLoop tag limit (visibleEntries now st.store)).2)) ≤
          (entryIds st.store).length := List.countP_le_length _
      have h3 : (entryIds st.store).length = st.store.length := List.length_map _ _
      omega
    show st.ttlExpired + (scanLoop tag limit (visibleEntries now st.store)).2.length =
      st.ttlExpired + (st.store.length - _)
    rw [show (QueryAndOwn LockOutcome.acquired tag now ls limit st).2.store =
      applyLease (scanLoop tag limit (visibleEntries now st.store)).1
        (scanLoop tag limit (visibleEntries now st.store)).2
        (now + ls * 1000000) st.store from rfl]
    rw [happly]
    omega
  · intro hz e' he'
    obtain ⟨e, hes, hid, -, hcase⟩ := applyLease_mem_src he'
    rcases hcase with heq | ⟨t, ht, heq⟩
    · rw [heq]
      exact hz e hes
    · obtain ⟨e₂, he₂, heq₂, hnz⟩ := scanLoop_tasks_spec tag _ limit t ht
      rw [heq]
      exact hnz
  · intro i hi ps
    exact runSteps_absent i ps st hi

/-- Witness for C4: one visible task with TTL 1 is dropped and counted. -/
theorem c4_witness :
    (entryIds c4ExampleState.store).Nodup ∧
    (QueryAndOwn LockOutcome.acquired "w" 10 5 1 c4ExampleState).2.ttlExpired =
      c4ExampleState.ttlExpired +
        (c4ExampleState.store.length -
          (QueryAndOwn LockOutcome.acquired "w" 10 5 1 c4ExampleState).2.store.length) :=
  ⟨by decide, (c4_ttl_lifecycle "w" 10 5 1 c4ExampleState (by decide)).2.1⟩

/-- C8: `QueryAndOwn` returns the empty list (without raising) when the
queue lock cannot be acquired or a generic datastore error occurs during
leasing, and also when the queue has no visible task. -/
theorem c8_query_and_own_swallows (lock : LockOutcome) (tag : String)
    (now ls limit : Nat) (st : QState) :
    (lock = LockOutcome.lockFailed ∨ lock = LockOutcome.storeError →
      QueryAndOwn lock tag now ls limit st = ([], st)) ∧
    ((∀ e ∈ st.store, ¬ e.ts ≤ now) →
      (QueryAndOwn lock tag now ls limit st).1 = []) := by
  constructor
  · rintro (rfl | rfl) <;> rfl
  · intro h
    cases lock with
    | lockFailed => rfl
    | storeError => rfl
    | acquired =>
      have hv : visibleEntries now st.store = [] := by
        rw [visibleEntries, List.filter_eq_nil_iff]
        intro e he
        simpa using h e he
      show (scanLoop tag limit (visibleEntries now st.store)).1 = []
      rw [hv]
      rfl

/-- Witness for C8: a failed lock returns the empty list unchanged, and an
acquired lock over a queue whose only task is not yet visible returns the
empty list. -/
theorem c8_witness :
    QueryAndOwn LockOutcome.lockFailed "w" 0 1 1 ⟨[], 0⟩ = ([], ⟨[], 0⟩) ∧
    (QueryAndOwn LockOutcome.acquired "w" 0 1 1 ⟨[⟨⟨1, 1, 5, 7, ""⟩, 7⟩], 0⟩).1 = [] :=
  ⟨(c8_query_and_own_swallows LockOutcome.lockFailed "w" 0 1 1 ⟨[], 0⟩).1 (Or.inl rfl),
   (c8_query_and_own_swallows LockOutcome.acquired "w" 0 1 1
     ⟨[⟨⟨1, 1, 5, 7, ""⟩, 7⟩], 0⟩).2 (by decide)⟩

/-! ### Lemmas about notifications -/

theorem queueMany_key_aux :
    ∀ (ns : List GrrNotification) (buf : String → Option GrrNotification)
      (sid : String) (ts : Option Nat), sid ≠ "" →
      (∀ n ∈ ns, n.session_id = sid) →
      ∀ c, buf (notifKey sid ts) = some c →
        ∃ c', queueMany buf ns ts (notifKey sid ts) = some c' ∧
          (c' = c ∨ ∃ n ∈ ns, c' = { n with timestamp := ts }) ∧
          c.last_status ≤ c'.last_status ∧
          ∀ m ∈ ns, m.last_status ≤ c'.last_status := by
  intro ns
  induction ns with
  | nil =>
    intro buf sid ts hs hall c hc
    exact ⟨c, hc, Or.inl rfl, le_refl _, by simp⟩
  | cons n rest ih =>
    intro buf sid ts hs hall c hc
    have hn : n.session_id = sid := hall n (List.mem_cons_self n rest)
    have hkey : QueueNotification buf n ts (notifKey sid ts) =
        (if c.last_status < n.last_status then some { n with timestamp := ts }
         else some c) := by
      simp only [QueueNotification, hn, if_neg hs]
      rw [if_pos trivial, hc]
    rw [queueMany]
    by_cases hlt : c.last_status < n.last_status
    · obtain ⟨c', h1, h2, h3, h4⟩ := ih (QueueNotification buf n ts) sid ts hs
        (fun m hm => hall m (List.mem_cons_of_mem n hm)) { n with timestamp := ts }
        (by rw [hkey, if_pos hlt])
      refine ⟨c', h1, ?_, ?_, ?_⟩
      · rcases h2 with h2 | ⟨m, hm, h2⟩
        · exact Or.inr ⟨n, List.mem_cons_self n rest, h2⟩
        · exact Or.inr ⟨m, List.mem_cons_of_mem n hm, h2⟩
      · have hn' : n.last_status ≤ c'.last_status := h3
        omega
      · intro m hm
        rcases List.mem_cons.1 hm with rfl | hm
        · exact h3
        · exact h4 m hm
    · obtain ⟨c', h1, h2, h3, h4⟩ := ih (QueueNotification buf n ts) sid ts hs
        (fun m hm => hall m (List.mem_cons_of_mem n hm)) c (by rw [hkey, if_neg hlt])
      refine ⟨c', h1, ?_, h3, ?_⟩
      · rcases h2 with h2 | ⟨m, hm, h2⟩
        · exact Or.inl h2
        · exact Or.inr ⟨m, List.mem_cons_of_mem n hm, h2⟩
      · intro m hm
        rcases List.mem_cons.1 hm with rfl | hm
        · omega
        · exact h4 m hm

/-- C5: queuing any non-empty sequence of notifications sharing a non-empty
session id and a common timestamp key leaves exactly one pending
notification under that key, namely one of the queued notifications
(stamped with the timestamp) whose ordering hint `last_status` is maximal
among them; queuing the same notification repeatedly is the special case
where all hints are equal. -/
theorem c5_notification_idempotence (sid : String) (ts : Option Nat)
    (ns : List GrrNotification) (buf : String → Option GrrNotification)
    (hs : sid ≠ "") (hne : ns ≠ [])
    (hall : ∀ n ∈ ns, n.session_id = sid)
    (h0 : buf (notifKey sid ts) = none) :
    ∃ n ∈ ns, queueMany buf ns ts (notifKey sid ts) = some { n with timestamp := ts } ∧
      ∀ m ∈ ns, m.last_status ≤ n.last_status := by
  cases ns with
  | nil => exact absurd rfl hne
  | cons n rest =>
    have hn : n.session_id = sid := hall n (List.mem_cons_self n rest)
    have hkey : QueueNotification buf n ts (notifKey sid ts) =
        some { n with timestamp := ts } := by
      simp only [QueueNotification, hn, if_neg hs]
      rw [if_pos trivial, h0]
    rw [queueMany]
    obtain ⟨c', h1, h2, h3, h4⟩ := queueMany_key_aux rest (QueueNotification buf n ts)
      sid ts hs (fun m hm => hall m (List.mem_cons_of_mem n hm)) _ hkey
    rcases h2 with h2 | ⟨m, hm, h2⟩
    · refine ⟨n, List.mem_cons_self n rest, by rw [h1, h2], ?_⟩
      intro m hm
      rcases List.mem_cons.1 hm with rfl | hm
      · exact le_refl _
      · have := h4 m hm
        rw [h2] at this
        exact this
    · refine ⟨m, List.mem_cons_of_mem n hm, by rw [h1, h2], ?_⟩
      intro m₂ hm₂
      rcases List.mem_cons.1 hm₂ with rfl | hm₂
      · have : m₂.last_status ≤ c'.last_status := h3
        rw [h2] at this
        exact this
      · have := h4 m₂ hm₂
        rw [h2] at this
        exact this

/-- Witness for C5: three notifications for session "S" at timestamp 7 with
hints 1, 5, 5; the survivor carries the maximal hint 5. -/
theorem c5_witness :
    ∃ n ∈ [(⟨"S", none, 1⟩ : GrrNotification), ⟨"S", some 3, 5⟩, ⟨"S", none, 5⟩],
      queueMany (fun _ => none)
          [(⟨"S", none, 1⟩ : GrrNotification), ⟨"S", some 3, 5⟩, ⟨"S", none, 5⟩]
          (some 7) (notifKey "S" (some 7)) = some { n with timestamp := some 7 } ∧
      ∀ m ∈ [(⟨"S", none, 1⟩ : GrrNotification), ⟨"S", some 3, 5⟩, ⟨"S", none, 5⟩],
        m.last_status ≤ n.last_status :=
  c5_notification_idempotence "S" (some 7)
    [⟨"S", none, 1⟩, ⟨"S", some 3, 5⟩, ⟨"S", none, 5⟩] (fun _ => none)
    (by decide) (by decide) (by decide) rfl

/-! ### Lemmas about the commit traces -/

theorem before_append {α : Type} (pre suf : List α) (P Q : α → Prop)
    (h1 : ∀ a ∈ pre, ¬ Q a) (h2 : ∀ a ∈ suf, ¬ P a)
    (i j : Nat) (hi : i < (pre ++ suf).length) (hj : j < (pre ++ suf).length)
    (hP : P ((pre ++ suf)[i])) (hQ : Q ((pre ++ suf)[j])) : i < j := by
  have hlen := List.length_append pre suf
  have hi' : i < pre.length := by
    by_contra hge
    push_neg at hge
    have hmem : (pre ++ suf)[i] ∈ suf := by
      rw [List.getElem_append_right hge]
      exact List.getElem_mem _
    exact h2 _ hmem hP
  have hj' : pre.length ≤ j := by
    by_contra hlt
    push_neg at hlt
    have hmem : (pre ++ suf)[j] ∈ pre := by
      rw [List.getElem_append_left hlt]
      exact List.getElem_mem _
    exact h1 _ hmem hQ
  omega

theorem queueFlushTrace_writes (b : QueueBuffers) :
    ∀ a ∈ queueFlushTrace b, isQueueWrite a = true := by
  intro a ha
  rw [queueFlushTrace] at ha
  rcases List.mem_cons.1 ha with rfl | ha
  · rfl
  · rcases List.mem_append.1 ha with ha | ha
    · rcases List.mem_append.1 ha with ha | ha
      · obtain ⟨c, -, rfl⟩ := List.mem_map.1 ha
        rfl
      · obtain ⟨c, -, rfl⟩ := List.mem_map.1 ha
        rfl
    · obtain ⟨c, -, rfl⟩ := List.mem_map.1 ha
      rfl

/-- C6: in `Flush` and in `Close`, the lease check comes first and an
expired lease aborts the commit before any store write; every buffered
queue mutation is written only after the flow state write (`persistState`);
and within the queue flush the requests-and-responses write precedes every
notification write. -/
theorem c6_commit_ordering (b : QueueBuffers) :
    ((flowFlushTrace false b).2 = false ∧
      ∀ e ∈ (flowFlushTrace false b).1, isStoreWrite e = false) ∧
    ((flowCloseTrace false b).2 = false ∧
      ∀ e ∈ (flowCloseTrace false b).1, isStoreWrite e = false) ∧
    (flowFlushTrace true b).1.head? = some FlowEv.checkLease ∧
    (flowCloseTrace true b).1.head? = some FlowEv.checkLease ∧
    (∀ (i j : Nat) (hi : i < (flowFlushTrace true b).1.length)
        (hj : j < (flowFlushTrace true b).1.length),
      (flowFlushTrace true b).1[i] = FlowEv.persistState →
      isQueueWrite ((flowFlushTrace true b).1[j]) = true → i < j) ∧
    (∀ (i j : Nat) (hi : i < (flowCloseTrace true b).1.length)
        (hj : j < (flowCloseTrace true b).1.length),
      (flowCloseTrace true b).1[i] = FlowEv.persistState →
      isQueueWrite ((flowCloseTrace true b).1[j]) = true → i < j) ∧
    (∀ (i j : Nat) (hi : i < (flowFlushTrace true b).1.length)
        (hj : j < (flowFlushTrace true b).1.length),
      (flowFlushTrace true b).1[i] = FlowEv.storeRequestsAndResponses →
      isNotifyEv ((flowFlushTrace true b).1[j]) = true → i < j) ∧
    (∀ (i j : Nat) (hi : i < (flowCloseTrace true b).1.length)
        (hj : j < (flowCloseTrace true b).1.length),
      (flowCloseTrace true b).1[i] = FlowEv.storeRequestsAndResponses →
      isNotifyEv ((flowCloseTrace true b).1[j]) = true → i < j) := by
  have hqw : ∀ a ∈ queueFlushTrace b, ¬ (a = FlowEv.persistState) := by
    intro a ha heq
    have hw := queueFlushTrace_writes b a ha
    rw [heq] at hw
    simp [isQueueWrite] at hw
  have hnotif2 : ∀ a ∈ b.notifySessions.map FlowEv.notifyQueue,
      ¬ (a = FlowEv.storeRequestsAndResponses) := by
    intro a ha heq
    obtain ⟨c, -, rfl⟩ := List.mem_map.1 ha
    simp at heq
  have hpre2 : ∀ (pre : List FlowEv), (∀ a ∈ pre, isNotifyEv a = false) →
      ∀ a ∈ (pre ++ b.clientDeletes.map FlowEv.deleteClientMessages ++
        b.newClientMessages.map FlowEv.scheduleTasks),
        ¬ (isNotifyEv a = true) := by
    intro pre hpre a ha heq
    rcases List.mem_append.1 ha with ha | ha
    · rcases List.mem_append.1 ha with ha | ha
      · rw [hpre a ha] at heq
        cases heq
      · obtain ⟨c, -, rfl⟩ := List.mem_map.1 ha
        simp [isNotifyEv] at heq
    · obtain ⟨c, -, rfl⟩ := List.mem_map.1 ha
      simp [isNotifyEv] at heq
  refine ⟨⟨rfl, ?_⟩, ⟨rfl, ?_⟩, rfl, rfl, ?_, ?_, ?_, ?_⟩
  · intro e he
    have h1 : (flowFlushTrace false b).1 = [FlowEv.checkLease] := rfl
    rw [h1] at he
    have : e = FlowEv.checkLease := by simpa using he
    rw [this]
    rfl
  · intro e he
    have h1 : (flowCloseTrace false b).1 = [FlowEv.checkLease] := rfl
    rw [h1] at he
    have : e = FlowEv.checkLease := by simpa using he
    rw [this]
    rfl
  · intro i j hi hj hP hQ
    exact before_append
      [FlowEv.checkLease, FlowEv.save, FlowEv.writeState, FlowEv.load, FlowEv.persistState]
      (queueFlushTrace b) (fun a => a = FlowEv.persistState)
      (fun a => isQueueWrite a = true) (by decide) hqw i j hi hj hP hQ
  · intro i j hi hj hP hQ
    exact before_append
      [FlowEv.checkLease, FlowEv.save, FlowEv.writeState, FlowEv.persistState]
      (queueFlushTrace b) (fun a => a = FlowEv.persistState)
      (fun a => isQueueWrite a = true) (by decide) hqw i j hi hj hP hQ
  · intro i j hi hj hP hQ
    exact before_append
      ([FlowEv.checkLease, FlowEv.save, FlowEv.writeState, FlowEv.load,
        FlowEv.persistState, FlowEv.storeRequestsAndResponses] ++
        b.clientDeletes.map FlowEv.deleteClientMessages ++
        b.newClientMessages.map FlowEv.scheduleTasks)
      (b.notifySessions.map FlowEv.notifyQueue)
      (fun a => a = FlowEv.storeRequestsAndResponses)
      (fun a => isNotifyEv a = true) (hpre2 _ (by decide)) hnotif2 i j hi hj hP hQ
  · intro i j hi hj hP hQ
    exact before_append
      ([FlowEv.checkLease, FlowEv.save, FlowEv.writeState,
        FlowEv.persistState, FlowEv.storeRequestsAndResponses] ++
        b.clientDeletes.map FlowEv.deleteClientMessages ++
        b.newClientMessages.map FlowEv.scheduleTasks)
      (b.notifySessions.map FlowEv.notifyQueue)
      (fun a => a = FlowEv.storeRequestsAndResponses)
      (fun a => isNotifyEv a = true) (hpre2 _ (by decide)) hnotif2 i j hi hj hP hQ

/-- Witness for C6 at a concrete buffer: one deletion, one scheduled
message, one notification. -/
theorem c6_witness :
    (flowFlushTrace false ⟨["C.1"], [3], ["S"]⟩).2 = false ∧
    (flowFlushTrace true ⟨["C.1"], [3], ["S"]⟩).1.head? = some FlowEv.checkLease :=
  ⟨(c6_commit_ordering ⟨["C.1"], [3], ["S"]⟩).1.1,
   (c6_commit_ordering ⟨["C.1"], [3], ["S"]⟩).2.2.1⟩

/-- Counterexample to C7 as stated: on a flow object opened without read
mode (`mode = "w"`), the dispatcher skips the pending-termination check
entirely, so even with `PENDING_TERMINATION` set to reason "x" it records
resource usage and runs the handler instead of calling `Error`. -/
theorem c7_counterexample :
    stateHandlerDispatch ['w'] (some "x") false true =
      [DispatchEv.saveResourceUsage, DispatchEv.handlerRun] ∧
    DispatchEv.handlerRun ∈ stateHandlerDispatch ['w'] (some "x") false true ∧
    ∀ r, DispatchEv.errorCalled r ∉ stateHandlerDispatch ['w'] (some "x") false true := by
  refine ⟨rfl, by decide, ?_⟩
  intro r hmem
  have h1 : stateHandlerDispatch ['w'] (some "x") false true =
      [DispatchEv.saveResourceUsage, DispatchEv.handlerRun] := rfl
  rw [h1] at hmem
  simp at hmem

/-- C7 (amended): on a flow object opened for reading (`"r" in self.mode`)
whose `PENDING_TERMINATION` attribute is set, the dispatcher calls `Error`
with the recorded reason and returns: the handler body never runs and no
resource usage is recorded, whatever the responses carry. -/
theorem c7_pending_termination_checked (mode : List Char) (pending : Option String)
    (reason : String) (direct hasStatus : Bool)
    (hmode : mode.contains 'r' = true) (hp : pending = some reason) :
    stateHandlerDispatch mode pending direct hasStatus = [DispatchEv.errorCalled reason] ∧
    DispatchEv.handlerRun ∉ stateHandlerDispatch mode pending direct hasStatus ∧
    DispatchEv.saveResourceUsage ∉ stateHandlerDispatch mode pending direct hasStatus := by
  have h1 : stateHandlerDispatch mode pending direct hasStatus =
      [DispatchEv.errorCalled reason] := by
    unfold stateHandlerDispatch
    rw [hmode, hp]
    rfl
  refine ⟨h1, ?_, ?_⟩ <;> rw [h1] <;> simp

/-- Witness for the amended C7 at mode "rw" with reason "x". -/
theorem c7_witness :
    (['r', 'w'].contains 'r' = true) ∧
    stateHandlerDispatch ['r', 'w'] (some "x") false true =
      [DispatchEv.errorCalled "x"] :=
  ⟨by decide,
   (c7_pending_termination_checked ['r', 'w'] (some "x") "x" false true (by decide) rfl).1⟩
